import Mathlib

/-!
Shallow embedding of the Shrdlite blocks-world core (Interpreter, Util,
StateGraph, Planner, A* search) from the TypeScript sources, together with
theorems settling the claims about the natural-language specification.

Conventions of the embedding:
* TypeScript `null`/`undefined` string fields are modelled with `Option String`
  (`none` for null/undefined).
* JavaScript object-reference equality (`===` between two attribute records)
  is modelled by an explicit `sameRef : Bool` parameter where it matters
  (`Util.isValid`); at the Interpreter call sites both records come from the
  same `state.objects` dictionary keyed by identifier, so two lookups alias
  exactly when the identifiers coincide.
* Thrown errors are modelled with `Except`.
-/

namespace Shrdlite

/-- The enumeration of relations (`Interpreter.Rel` in the source). -/
inductive Rel where
  | leftof
  | rightof
  | above
  | ontop
  | under
  | beside
  | inside
  | holding
deriving DecidableEq, Repr

/-- Attributes of a world object (`Parser.Object` in the source): `form`,
`size`, `color`, each possibly `null`/`undefined` (modelled by `none`). -/
structure ObjAttrs where
  form : Option String
  size : Option String
  color : Option String
deriving DecidableEq, Repr

/-- The `floor` sentinel object: `{ form: "floor", size: null, color: null }`. -/
def floorAttrs : ObjAttrs := ⟨some "floor", none, none⟩

/-- `Util.isValid(objToMove, destination, rel)` translated clause by clause
from `src/unnamed/part_003`.  The final `return objToMove !== destination`
(reference inequality between the two attribute records) is modelled by the
explicit `sameRef` argument. -/
def isValid (objToMove destination : ObjAttrs) (sameRef : Bool) (rel : Rel) : Bool :=
  -- "Small objects cannot support large objects."
  if objToMove.size == some "large" && destination.size == some "small"
      && (rel == .inside || rel == .ontop) then false
  else if objToMove.form == some "ball" && rel == .under then false
  -- "Balls must be in boxes or on the floor, otherwise they roll away."
  else if objToMove.form == some "ball"
      && (destination.form != some "box" && destination.form != some "floor"
        && (rel == .ontop || rel == .inside)) then false
  -- "Objects are inside boxes, but ontop of other objects."
  else if (destination.form == some "box" && rel == .ontop)
      || (destination.form != some "box" && rel == .inside) then false
  -- "Balls cannot support anything."
  else if destination.form == some "ball"
      && ((rel == .ontop || rel == .inside)
        || (rel == .under && destination.size == some "small"
            && objToMove.size == some "large")) then false
  -- "Boxes cannot contain pyramids, planks or boxes of the same size."
  else if destination.form == some "box" && rel == .inside
      && (objToMove.form == some "pyramid" || objToMove.form == some "plank"
        || (objToMove.form == some "box" && objToMove.size == destination.size)) then false
  -- "Small boxes cannot be supported by small bricks or pyramids."
  else if objToMove.form == some "box"
      && destination.size == some "small" && objToMove.size == some "small"
      && rel == .ontop
      && (destination.form == some "pyramid" || destination.form == some "brick") then false
  -- "Large boxes cannot be supported by large pyramids."
  else if objToMove.form == some "box" && objToMove.size == some "large"
      && destination.form == some "pyramid" then false
  -- An object cannot be right/left/etc of itself: `objToMove !== destination`.
  else !sameRef

section SpecConditions

/-- Spec condition 1: `move.size=large ∧ dest.size=small ∧ relation ∈ {inside, ontop}`. -/
def specCond1 (move dest : ObjAttrs) (rel : Rel) : Bool :=
  move.size == some "large" && dest.size == some "small"
    && (rel == .inside || rel == .ontop)

/-- Spec condition 2: `move.form=ball ∧ relation=under`. -/
def specCond2 (move _dest : ObjAttrs) (rel : Rel) : Bool :=
  move.form == some "ball" && rel == .under

/-- Spec condition 3: `move.form=ball ∧ dest.form ∉ {box, floor} ∧ relation ∈ {ontop, inside}`. -/
def specCond3 (move dest : ObjAttrs) (rel : Rel) : Bool :=
  move.form == some "ball"
    && (dest.form != some "box" && dest.form != some "floor"
      && (rel == .ontop || rel == .inside))

/-- Spec condition 4: `dest.form=box ∧ relation=ontop`, or `dest.form≠box ∧ relation=inside`. -/
def specCond4 (_move dest : ObjAttrs) (rel : Rel) : Bool :=
  (dest.form == some "box" && rel == .ontop)
    || (dest.form != some "box" && rel == .inside)

/-- Spec condition 5: `dest.form=ball ∧ relation ∈ {ontop, inside}`, or
`dest.form=ball ∧ dest.size=small ∧ move.size=large ∧ relation=under`. -/
def specCond5 (move dest : ObjAttrs) (rel : Rel) : Bool :=
  (dest.form == some "ball" && (rel == .ontop || rel == .inside))
    || (dest.form == some "ball" && dest.size == some "small"
        && move.size == some "large" && rel == .under)

/-- Spec condition 6: `dest.form=box ∧ relation=inside ∧
(move.form ∈ {pyramid, plank} ∨ (move.form=box ∧ move.size=dest.size))`. -/
def specCond6 (move dest : ObjAttrs) (rel : Rel) : Bool :=
  dest.form == some "box" && rel == .inside
    && (move.form == some "pyramid" || move.form == some "plank"
      || (move.form == some "box" && move.size == dest.size))

/-- Spec condition 7: `move.form=box ∧ move.size=small ∧ dest.size=small ∧
relation=ontop ∧ dest.form ∈ {pyramid, brick}`. -/
def specCond7 (move dest : ObjAttrs) (rel : Rel) : Bool :=
  move.form == some "box"
    && move.size == some "small" && dest.size == some "small"
    && rel == .ontop
    && (dest.form == some "pyramid" || dest.form == some "brick")

/-- Spec condition 8: `move.form=box ∧ move.size=large ∧ dest.form=pyramid`. -/
def specCond8 (move dest : ObjAttrs) (_rel : Rel) : Bool :=
  move.form == some "box" && move.size == some "large"
    && dest.form == some "pyramid"

/-- Spec condition 9 exactly as the claim states it: the same-identifier
condition applies only to the relations leftof, rightof and beside. -/
def specCond9Claim (sameRef : Bool) (rel : Rel) : Bool :=
  (rel == .leftof || rel == .rightof || rel == .beside) && sameRef

/-- The claimed complete enumeration: one of the nine conditions (with
condition 9 restricted to leftof/rightof/beside) holds. -/
def specNineConds (move dest : ObjAttrs) (sameRef : Bool) (rel : Rel) : Bool :=
  specCond1 move dest rel || specCond2 move dest rel || specCond3 move dest rel ||
  specCond4 move dest rel || specCond5 move dest rel || specCond6 move dest rel ||
  specCond7 move dest rel || specCond8 move dest rel || specCond9Claim sameRef rel

end SpecConditions

/-- C1 counterexample input: a large blue table, as both `move` and `dest`
(same record), with relation `above`. -/
def tableAttrs : ObjAttrs := ⟨some "table", some "large", some "blue"⟩

/-- C1 counterexample: with `move = dest` (the same attribute record) and the
relation `above`, none of the nine enumerated conditions holds — condition 9
being restricted to leftof/rightof/beside — yet `isValid` returns false,
because the source ends with `return objToMove !== destination` for every
relation.  So the claimed if-and-only-if enumeration is wrong about the code:
`isValid` does not return true here. -/
theorem isValid_same_ref_above_counterexample :
    isValid tableAttrs tableAttrs true .above = false ∧
    specNineConds tableAttrs tableAttrs true .above = false := by
  decide

/-- Bridge between the source's grouping of the "balls cannot support
anything" clause and the spec's: `a ∧ ((b ∨ c) ∨ (u ∧ e ∧ f))` is
`(a ∧ (b ∨ c)) ∨ (a ∧ e ∧ f ∧ u)`. -/
theorem cond5_assoc :
    ∀ a b c u e f : Bool,
      (a && ((b || c) || (u && e && f))) = ((a && (b || c)) || (a && e && f && u)) := by
  decide

/-- Evaluation of the nine-fold guarded conditional against the disjunction of
its guards, as a pure boolean tautology. -/
theorem isValid_shape :
    ∀ b1 b2 b3 b4 b5 b6 b7 b8 s : Bool,
      ((if b1 then false else if b2 then false else if b3 then false
        else if b4 then false else if b5 then false else if b6 then false
        else if b7 then false else if b8 then false else !s) = false
        ↔ (b1 || b2 || b3 || b4 || b5 || b6 || b7 || b8 || s) = true) := by
  decide

/-- Reordering the middle two conjuncts of the "small boxes" clause: the
source tests `dest.size` before `move.size`, the spec the other way round. -/
theorem cond7_swap :
    ∀ a e f b g : Bool, (a && e && f && b && g) = (a && f && e && b && g) := by
  decide

/-- C1 amended: `isValid(move, dest, rel)` returns false iff one of the
conditions 1–8 holds or `move` and `dest` are the same object record — the
same-identifier rejection applies to every relation, not only to
leftof/rightof/beside. -/
theorem isValid_false_iff_amended (move dest : ObjAttrs) (sameRef : Bool) (rel : Rel) :
    isValid move dest sameRef rel = false ↔
      (specCond1 move dest rel || specCond2 move dest rel || specCond3 move dest rel ||
       specCond4 move dest rel || specCond5 move dest rel || specCond6 move dest rel ||
       specCond7 move dest rel || specCond8 move dest rel || sameRef) = true := by
  have e5 : (dest.form == some "ball"
      && ((rel == .ontop || rel == .inside)
        || (rel == .under && dest.size == some "small"
            && move.size == some "large")) : Bool)
      = specCond5 move dest rel := cond5_assoc _ _ _ _ _ _
  have e7 : (move.form == some "box"
      && dest.size == some "small" && move.size == some "small"
      && rel == .ontop
      && (dest.form == some "pyramid" || dest.form == some "brick") : Bool)
      = specCond7 move dest rel := cond7_swap _ _ _ _ _
  unfold isValid
  rw [e5, e7]
  unfold specCond1 specCond2 specCond3 specCond4 specCond6 specCond8
  exact isValid_shape _ _ _ _ _ _ _ _ _

/-! ## Shared data model: literals, world states -/

/-- An `Interpreter.Literal`: polarity, relation and argument identifiers
(one identifier for `holding`, two otherwise). -/
structure Literal where
  polarity : Bool
  relation : Rel
  args : List String
deriving DecidableEq, Repr

/-- A conjunction of literals. -/
abbrev Conjunction := List Literal

/-- A DNF formula: a list of conjunctions. -/
abbrev DNFFormula := List Conjunction

/-- A `WorldState`: the stacks (bottom-first lists of identifiers), the held
identifier if any, the arm position, and the identifier-to-attributes
dictionary (modelled as a total function; identifiers outside the world map
to the all-`none` record, mirroring JavaScript `undefined` field reads). -/
structure WorldState where
  «stacks» : List (List String)
  holding : Option String
  arm : Nat
  objects : String → ObjAttrs

/-- `Util.isValid` as invoked by the Interpreter: both attribute records are
looked up in the same dictionary, so they are the same reference exactly when
the identifiers are equal. -/
def isValidIds (objects : String → ObjAttrs) (a b : String) (rel : Rel) : Bool :=
  isValid (objects a) (objects b) (a == b) rel

/-! ## Util container functions (`src/unnamed/part_003`) -/

/-- The loop of `Util.unique`: `found` is the set of already-seen elements
(JSON-stringification equality is structural equality). -/
def uniqueGo {α : Type} [DecidableEq α] (found : List α) : List α → List α
  | [] => []
  | x :: xs => if x ∈ found then uniqueGo found xs else x :: uniqueGo (x :: found) xs

/-- `Util.unique`: keeps the first occurrence of each element. -/
def unique {α : Type} [DecidableEq α] (arr : List α) : List α :=
  uniqueGo [] arr

theorem uniqueGo_subset {α : Type} [DecidableEq α] (found : List α) :
    ∀ l : List α, ∀ x ∈ uniqueGo found l, x ∈ l := by
  intro l
  induction l generalizing found with
  | nil => intro x hx; simp [uniqueGo] at hx
  | cons y ys ih =>
    intro x hx
    simp only [uniqueGo] at hx
    split at hx
    · exact List.mem_cons_of_mem _ (ih found x hx)
    · rcases List.mem_cons.1 hx with h | h
      · exact h ▸ List.mem_cons_self _ _
      · exact List.mem_cons_of_mem _ (ih _ x h)

theorem uniqueGo_not_mem_found {α : Type} [DecidableEq α] :
    ∀ (l found : List α), ∀ x ∈ uniqueGo found l, x ∉ found := by
  intro l
  induction l with
  | nil => intro found x hx; simp [uniqueGo] at hx
  | cons y ys ih =>
    intro found x hx
    simp only [uniqueGo] at hx
    split at hx
    · exact ih found x hx
    · rcases List.mem_cons.1 hx with h | h
      · subst h; assumption
      · intro hf
        exact ih (y :: found) _ h (List.mem_cons_of_mem _ hf)

theorem uniqueGo_nodup {α : Type} [DecidableEq α] :
    ∀ (l found : List α), (uniqueGo found l).Nodup := by
  intro l
  induction l with
  | nil => intro found; simp [uniqueGo]
  | cons y ys ih =>
    intro found
    simp only [uniqueGo]
    split
    · exact ih found
    · refine List.nodup_cons.2 ⟨?_, ih (y :: found)⟩
      intro hmem
      exact uniqueGo_not_mem_found ys (y :: found) y hmem (List.mem_cons_self _ _)

/-- The result of `Util.unique` has no duplicates and only contains elements
of its input. -/
theorem unique_nodup {α : Type} [DecidableEq α] (arr : List α) :
    (unique arr).Nodup :=
  uniqueGo_nodup arr []

theorem unique_subset {α : Type} [DecidableEq α] (arr : List α) :
    ∀ x ∈ unique arr, x ∈ arr :=
  uniqueGo_subset [] arr

/-- One step of `Util.groupBy`: append `x` to the group holding key `f x`, or
start a new group at the end (JavaScript object keys iterate in insertion
order). -/
def insertGroup {α κ : Type} [DecidableEq κ] (f : α → κ) (x : α) :
    List (κ × List α) → List (κ × List α)
  | [] => [(f x, [x])]
  | (k, g) :: rest =>
    if f x = k then (k, g ++ [x]) :: rest else (k, g) :: insertGroup f x rest

/-- `Util.groupBy(array, f)`: groups the elements by `f`, groups ordered by
first appearance of their key, elements in order inside each group. -/
def groupBy {α κ : Type} [DecidableEq κ] (array : List α) (f : α → κ) : List (List α) :=
  (array.foldl (fun groups o => insertGroup f o groups) []).map Prod.snd

theorem insertGroup_mem {α κ : Type} [DecidableEq κ] (f : α → κ) (x : α)
    (acc : List (κ × List α)) :
    ∀ p ∈ insertGroup f x acc, ∀ y ∈ p.2, (∃ q ∈ acc, y ∈ q.2) ∨ y = x := by
  induction acc with
  | nil =>
    intro p hp y hy
    simp only [insertGroup, List.mem_singleton] at hp
    subst hp
    simp only [List.mem_singleton] at hy
    exact Or.inr hy
  | cons kg rest ih =>
    intro p hp y hy
    obtain ⟨k, g⟩ := kg
    simp only [insertGroup] at hp
    split at hp
    · rcases List.mem_cons.1 hp with h | h
      · subst h
        rcases List.mem_append.1 hy with h' | h'
        · exact Or.inl ⟨(k, g), List.mem_cons_self _ _, h'⟩
        · simp only [List.mem_singleton] at h'
          exact Or.inr h'
      · exact Or.inl ⟨p, List.mem_cons_of_mem _ h, hy⟩
    · rcases List.mem_cons.1 hp with h | h
      · subst h
        exact Or.inl ⟨(k, g), List.mem_cons_self _ _, hy⟩
      · rcases ih p h y hy with ⟨q, hq, hyq⟩ | h'
        · exact Or.inl ⟨q, List.mem_cons_of_mem _ hq, hyq⟩
        · exact Or.inr h'

theorem groupBy_foldl_mem {α κ : Type} [DecidableEq κ] (f : α → κ) :
    ∀ (l : List α) (acc : List (κ × List α)),
      ∀ p ∈ l.foldl (fun groups o => insertGroup f o groups) acc,
        ∀ y ∈ p.2, (∃ q ∈ acc, y ∈ q.2) ∨ y ∈ l := by
  intro l
  induction l with
  | nil => intro acc p hp y hy; exact Or.inl ⟨p, hp, hy⟩
  | cons x xs ih =>
    intro acc p hp y hy
    rcases ih (insertGroup f x acc) p hp y hy with ⟨q, hq, hyq⟩ | h
    · rcases insertGroup_mem f x acc q hq y hyq with ⟨r, hr, hyr⟩ | h'
      · exact Or.inl ⟨r, hr, hyr⟩
      · exact Or.inr (h' ▸ List.mem_cons_self _ _)
    · exact Or.inr (List.mem_cons_of_mem _ h)

/-- Every element of every group produced by `Util.groupBy` is an element of
the input array. -/
theorem groupBy_mem {α κ : Type} [DecidableEq κ] (array : List α) (f : α → κ) :
    ∀ g ∈ groupBy array f, ∀ y ∈ g, y ∈ array := by
  intro g hg y hy
  simp only [groupBy, List.mem_map] at hg
  obtain ⟨p, hp, hpg⟩ := hg
  rcases groupBy_foldl_mem f array [] p hp y (hpg ▸ hy) with ⟨q, hq, _⟩ | h
  · simp at hq
  · exact h

/-- The recursive worker of `Util.cartProd` (`addTo`): extends `curr` by one
element of the first group and recurses on the remaining groups.  The source
would crash on an empty group list; that case is unreachable (the caller
passes the non-empty output of `groupBy` on a non-empty array) and is
modelled as `[]`. -/
def addTo {α : Type} (curr : List α) : List (List α) → List (List α)
  | [] => []
  | g :: rest =>
    g.flatMap fun x =>
      if rest.isEmpty then [curr ++ [x]] else addTo (curr ++ [x]) rest

/-- `Util.cartProd` applied to a list of groups. -/
def cartProd {α : Type} (paramArray : List (List α)) : List (List α) :=
  addTo [] paramArray

theorem addTo_mem {α : Type} :
    ∀ (groups : List (List α)) (curr : List α),
      ∀ l ∈ addTo curr groups, ∀ y ∈ l, y ∈ curr ∨ ∃ g ∈ groups, y ∈ g := by
  intro groups
  induction groups with
  | nil => intro curr l hl; simp [addTo] at hl
  | cons g rest ih =>
    intro curr l hl y hy
    simp only [addTo, List.mem_flatMap] at hl
    obtain ⟨x, hx, hxl⟩ := hl
    split at hxl
    · simp only [List.mem_singleton] at hxl
      subst hxl
      rcases List.mem_append.1 hy with h | h
      · exact Or.inl h
      · simp only [List.mem_singleton] at h
        exact Or.inr ⟨g, List.mem_cons_self _ _, h ▸ hx⟩
    · rcases ih (curr ++ [x]) l hxl y hy with h | ⟨g', hg', hyg'⟩
      · rcases List.mem_append.1 h with h' | h'
        · exact Or.inl h'
        · simp only [List.mem_singleton] at h'
          exact Or.inr ⟨g, List.mem_cons_self _ _, h' ▸ hx⟩
      · exact Or.inr ⟨g', List.mem_cons_of_mem _ hg', hyg'⟩

/-- Every element of every tuple of `Util.cartProd` comes from one of the
groups. -/
theorem cartProd_mem {α : Type} (groups : List (List α)) :
    ∀ l ∈ cartProd groups, ∀ y ∈ l, ∃ g ∈ groups, y ∈ g := by
  intro l hl y hy
  rcases addTo_mem groups [] l hl y hy with h | h
  · simp at h
  · exact h

/-- The loop of `Util.splitUp`, indexed by the remaining iteration count
(`fuel`); each iteration pushes `arr.slice(i, end)` and advances `i`.  The
source loop always terminates (each iteration advances `i` by
`partLength + (add ? 1 : 0) ≥ 1` whenever `i < arr.length`); `fuel =
arr.length` iterations therefore always suffice. -/
def splitUpGo {α : Type} (arr : List α) (partLength : Nat) (rest : Nat) :
    Nat → Nat → Nat → List (List α)
  | 0, _, _ => []
  | fuel + 1, i, restUsed =>
    if i < arr.length then
      let en := partLength + i
      let add := rest ≠ 0 ∧ restUsed ≠ 0
      let en := if add then en + 1 else en
      let restUsed := if add then restUsed - 1 else restUsed
      let slice := (arr.drop i).take (en - i)
      let i := if add then i + 1 else i
      slice :: splitUpGo arr partLength rest fuel (i + partLength) restUsed
    else []

/-- `Util.splitUp(arr, n)`: splits `arr` into `n` near-equal consecutive
slices.  The source computes `arr.length % n` and `Math.floor(arr.length/n)`;
for `n = 0` those are `NaN`/`Infinity` and the JavaScript loop pushes the
whole array once when it is non-empty — modelled explicitly (the Interpreter
only reaches `n = 0` with an empty array). -/
def splitUp {α : Type} (arr : List α) (n : Nat) : List (List α) :=
  if n = 0 then (if arr.isEmpty then [] else [arr])
  else splitUpGo arr (arr.length / n) (arr.length % n) arr.length 0 (arr.length % n)

theorem splitUpGo_mem {α : Type} (arr : List α) (partLength rest : Nat) :
    ∀ (fuel i restUsed : Nat),
      ∀ l ∈ splitUpGo arr partLength rest fuel i restUsed, ∀ y ∈ l, y ∈ arr := by
  intro fuel
  induction fuel with
  | zero => intro i restUsed l hl; simp [splitUpGo] at hl
  | succ fuel ih =>
    intro i restUsed l hl y hy
    simp only [splitUpGo] at hl
    split at hl
    · rcases List.mem_cons.1 hl with h | h
      · subst h
        exact List.mem_of_mem_drop (List.mem_of_mem_take hy)
      · exact ih _ _ l h y hy
    · simp at hl

/-- Every element of every slice of `Util.splitUp` is an element of the
input. -/
theorem splitUp_mem {α : Type} (arr : List α) (n : Nat) :
    ∀ l ∈ splitUp arr n, ∀ y ∈ l, y ∈ arr := by
  intro l hl y hy
  simp only [splitUp] at hl
  split at hl
  · split at hl
    · simp at hl
    · simp only [List.mem_singleton] at hl
      exact hl ▸ hy
  · exact splitUpGo_mem arr _ _ _ _ _ l hl y hy

/-! ## Parser AST and the Interpreter's reference resolution -/

/-- A `Parser.Object`: either a flat description (optional size, color, form)
or a nested description (an inner object plus a location clause, whose
`Location` record — relation and entity (quantifier and object) — is
flattened into the constructor). -/
inductive PObj where
  | simple (size color form : Option String)
  | nested (obj : PObj) (relation : Rel) (quantifier : String) (target : PObj)
deriving DecidableEq, Repr

/-- Reading `.form` off a `Parser.Object`: defined on a flat description,
JavaScript-`undefined` (modelled `none`) on a nested one. -/
def PObj.formField : PObj → Option String
  | .simple _ _ f => f
  | .nested _ _ _ _ => none

/-- Whether a `Parser.Object` has a nested object description
(`obj.object != null` in the source). -/
def PObj.isNested : PObj → Bool
  | .simple _ _ _ => false
  | .nested _ _ _ _ => true

/-- Errors thrown by the Interpreter: the `AmbiguityError` class, or a plain
thrown string. -/
inductive IError where
  | ambiguity (message : String)
  | err (message : String)
deriving DecidableEq, Repr

/-- JavaScript `Array.prototype.indexOf`: index of the first occurrence, `-1`
when absent. -/
def indexOfJS (l : List String) (x : String) : Int :=
  match l with
  | [] => -1
  | y :: ys =>
    if y == x then 0
    else
      let r := indexOfJS ys x
      if r == -1 then -1 else r + 1

/-- Index of the first stack containing `x` (the `indexOf(...) != -1` +
`break` idiom of the source loops). -/
def findStackIdx («stacks» : List (List String)) (x : String) : Option Nat :=
  stacks.findIdx? fun stack => stack.contains x

/-- `Interpreter.isMatch(filter, obj)`: field-by-field comparison; for a
nested description the fields are read off `filter.object` (undefined —
hence match-anything — when that is itself nested). -/
def isMatch (filterDesc : PObj) (obj : ObjAttrs) : Bool :=
  match filterDesc with
  | .simple s c f =>
    (c == none || obj.color == c) &&
    ((f == none || obj.form == f) || f == some "anyform") &&
    (s == none || obj.size == s)
  | .nested inner _ _ _ =>
    match inner with
    | .simple s c f =>
      (c == none || obj.color == c) &&
      ((f == none || obj.form == f) || f == some "anyform") &&
      (s == none || obj.size == s)
    | .nested _ _ _ _ => true

mutual

/-- `Interpreter.filter(obj, state)`: every identifier matching the
description.  Candidates are the stack contents (or, for a description with a
location clause, the output of `filter_relations`, intersected with the inner
description's matches when that is itself nested); throws
"Couldn't find any matching object" when the candidate list is empty, then
filters the candidates through `isMatch`. -/
def filter (obj : PObj) (state : WorldState) : Except IError (List String) :=
  match obj with
  | .simple s c f =>
    let objects := state.stacks.flatten
    if objects.isEmpty then .error (.err "Couldn't find any matching object")
    else .ok (objects.filter fun n => isMatch (.simple s c f) (state.objects n))
  | .nested inner rel q target =>
    let objectsE : Except IError (List String) :=
      if inner.isNested then
        match filter inner state with
        | .error e => .error e
        | .ok leif =>
          match filter_relations rel target state with
          | .error e => .error e
          | .ok objects => .ok (objects.filter fun v => leif.contains v)
      else filter_relations rel target state
    match objectsE with
    | .error e => .error e
    | .ok objects =>
      if objects.isEmpty then .error (.err "Couldn't find any matching object")
      else .ok (objects.filter fun n => isMatch (.nested inner rel q target) (state.objects n))
termination_by sizeOf obj * 3

/-- `Interpreter.filter_relations(location, state)`: dispatch on the
relation.  The location's relation and its entity's object are passed as
`rel` and `target`. -/
def filter_relations (rel : Rel) (target : PObj) (state : WorldState) :
    Except IError (List String) :=
  match rel with
  | .leftof => leftRightOf target state .leftof
  | .rightof => leftRightOf target state .rightof
  | .inside => inside target state
  | .above => aboveUnder target state .above
  | .under => aboveUnder target state .under
  | .beside => beside target state
  | .ontop => onTop target state
  | .holding => .error (.err "No matching relation")
termination_by sizeOf target * 3 + 2

/-- `Interpreter.aboveUnder(location, state, relation)`. -/
def aboveUnder (target : PObj) (state : WorldState) (relation : Rel) :
    Except IError (List String) :=
  if target.formField == some "floor" && relation == .above then
    .ok (state.stacks.foldl (fun result stack =>
      match stack with
      | [] => result
      | x :: _ => result ++ [x]) [])
  else
    match filter target state with
    | .error e => .error e
    | .ok delimiters =>
      .ok (delimiters.foldl (fun result delimiter =>
        state.stacks.foldl (fun result stack =>
          let index := indexOfJS stack delimiter
          if index != -1 then
            if relation == .above then result ++ stack.drop index.toNat
            else result ++ stack.take index.toNat
          else result) result) [])
termination_by sizeOf target * 3 + 1

/-- `Interpreter.inside(location, state)`. -/
def inside (target : PObj) (state : WorldState) : Except IError (List String) :=
  match filter target state with
  | .error e => .error e
  | .ok potentialBoxes =>
    .ok (potentialBoxes.foldl (fun result potentialBox =>
      state.stacks.foldl (fun result stack =>
        let index := indexOfJS stack potentialBox
        let objFound := state.objects potentialBox
        if index > -1 then
          if decide (index.toNat + 1 < stack.length) && objFound.form == some "box" then
            result ++ [stack.getD (index.toNat + 1) ""]
          else result
        else result) result) [])
termination_by sizeOf target * 3 + 1

/-- `Interpreter.leftRightOf(location, state, relation)`. -/
def leftRightOf (target : PObj) (state : WorldState) (relation : Rel) :
    Except IError (List String) :=
  match filter target state with
  | .error e => .error e
  | .ok leftOfObj =>
    .ok (leftOfObj.foldl (fun result delimiter =>
      match findStackIdx state.stacks delimiter with
      | none => result
      | some i =>
        if relation == .leftof then result ++ (state.stacks.take i).flatten
        else result ++ (state.stacks.drop (i + 1)).flatten) [])
termination_by sizeOf target * 3 + 1

/-- `Interpreter.beside(location, state)`. -/
def beside (target : PObj) (state : WorldState) : Except IError (List String) :=
  match filter target state with
  | .error e => .error e
  | .ok leftOfObj =>
    .ok (leftOfObj.foldl (fun result bottom =>
      match findStackIdx state.stacks bottom with
      | none => result
      | some i =>
        let result := if i ≠ 0 then result ++ (state.stacks.getD (i - 1) []) else result
        if i ≠ state.stacks.length - 1 then result ++ (state.stacks.getD (i + 1) [])
        else result) [])
termination_by sizeOf target * 3 + 1

/-- `Interpreter.onTop(location, state)`.  Note the source *assigns*
`result = [stack[index + 1]]` instead of pushing, so a later hit overwrites
earlier ones. -/
def onTop (target : PObj) (state : WorldState) : Except IError (List String) :=
  if target.formField == some "floor" then
    .ok (state.stacks.foldl (fun result stack =>
      match stack with
      | [] => result
      | x :: _ => result ++ [x]) [])
  else
    match filter target state with
    | .error e => .error e
    | .ok delimiters =>
      .ok (delimiters.foldl (fun result delimiter =>
        state.stacks.foldl (fun result stack =>
          let index := indexOfJS stack delimiter
          let objFound := state.objects delimiter
          if index != -1 && objFound.form != some "box" then
            if decide (index.toNat + 1 < stack.length) then [stack.getD (index.toNat + 1) ""]
            else result
          else result) result) [])
termination_by sizeOf target * 3 + 1

end


/-! ## Command lowering (`Interpreter.interpretCommand`) -/

/-- A `Parser.Entity`: a quantifier and an object description. -/
structure Ent where
  quantifier : String
  object : PObj
deriving DecidableEq, Repr

/-- A `Parser.Location`: a relation and an entity. -/
structure Loc where
  relation : Rel
  entity : Ent
deriving DecidableEq, Repr

/-- A `Parser.Command`: take / move / put. -/
inductive Cmd where
  | take (entity : Ent)
  | move (entity : Ent) (location : Loc)
  | put (location : Loc)
deriving DecidableEq, Repr

/-- JavaScript string coercion of a nullable string (`null` prints as
`"null"`). -/
def optStr : Option String → String
  | some s => s
  | none => "null"

/-- `Interpreter.mkClarificationMessage(objects, state)`. -/
def mkClarificationMessage (objects : List String) (state : WorldState) : String :=
  let possibleObjs := objects.map fun obj =>
    let stackn : Nat :=
      match findStackIdx state.stacks obj with
      | some a => a + 1
      | none => 0
    "the " ++ optStr (state.objects obj).size ++ " "
      ++ optStr (state.objects obj).color ++ " "
      ++ optStr (state.objects obj).form ++ " (in stack "
      ++ toString stackn ++ ")"
  String.intercalate " or " possibleObjs

/-- The `for obj of objsToMove / for dest of destinations / if isValid push`
loop shared by several quantifier branches of `interpretCommand`. -/
def collectValidPairs (objects : String → ObjAttrs) (rela : Rel)
    (objsToMove destinations : List String) : List Literal :=
  objsToMove.flatMap fun obj =>
    destinations.filterMap fun dest =>
      if isValidIds objects obj dest rela then
        some ⟨true, rela, [obj, dest]⟩
      else none

/-- Inner loop of the `the`/`all` branch of `interpretCommand`: each valid
pair is pushed unless the relation makes the combination illegal, in which
case the loop throws. -/
def collectTheAllInner (objects : String → ObjAttrs) (rela : Rel) (obj : String) :
    List String → Except IError (List Literal)
  | [] => .ok []
  | dest :: ds =>
    if isValidIds objects obj dest rela then
      if rela == .inside || (rela == .ontop && (objects dest).form != some "floor") then
        .error (.err "Things can be inside or on top exactly one object")
      else
        match collectTheAllInner objects rela obj ds with
        | .error e => .error e
        | .ok rest => .ok (⟨true, rela, [obj, dest]⟩ :: rest)
    else collectTheAllInner objects rela obj ds

/-- Outer loop of the `the`/`all` branch of `interpretCommand`. -/
def collectTheAll (objects : String → ObjAttrs) (rela : Rel) :
    List String → List String → Except IError (List Literal)
  | [], _ => .ok []
  | obj :: objs, ds =>
    match collectTheAllInner objects rela obj ds with
    | .error e => .error e
    | .ok first =>
      match collectTheAll objects rela objs ds with
      | .error e => .error e
      | .ok rest => .ok (first ++ rest)

/-- The quantifier-combination dispatch of the `put`/`move` arm: the
`if`/`else if` chain of `interpretCommand` after sources, destinations and
the three quantifier/relation variables have been resolved. -/
def quantifierDispatch (rela : Rel) (entQuant locQuant : String)
    (objsToMove destinations : List String) (state : WorldState) :
    Except IError DNFFormula :=
  if entQuant == "all" && locQuant == "all" && (rela == .inside || rela == .ontop) then
    .error (.err "Things can only be inside or on top exactly one object")
  else if (entQuant == "any" && locQuant == "all" && decide (destinations.length > 1)
        && (rela == .inside || rela == .ontop))
      || (entQuant == "all" && locQuant == "any" && decide (objsToMove.length > 1)) then
    let temp := collectValidPairs state.objects rela objsToMove destinations
    if temp.isEmpty then .error (.err "No valid interpretation found")
    else
      let groups := groupBy temp fun item => item.args.getD 0 ""
      .ok (cartProd groups)
  else if entQuant == "any" && locQuant == "all" then
    let temp1 := collectValidPairs state.objects rela objsToMove destinations
    let counter := objsToMove.length
    let s := splitUp temp1 counter
    if counter == 1 then .ok s else .ok s
  else if (entQuant == "the" && locQuant == "all")
      || (entQuant == "all" && locQuant == "the") then
    match collectTheAll state.objects rela objsToMove destinations with
    | .error e => .error e
    | .ok tmp =>
      if tmp.isEmpty then .error (.err "No valid interpretation found")
      else
        let tmp := unique tmp
        if entQuant == "all" && locQuant == "the" && decide (destinations.length > 1) then
          .error (.ambiguity (mkClarificationMessage destinations state))
        else if entQuant == "the" && locQuant == "all" && decide (objsToMove.length > 1) then
          .error (.ambiguity (mkClarificationMessage objsToMove state))
        else
          .ok (groupBy tmp fun item => item.relation)
  else if (entQuant == "all" && decide (objsToMove.length > 1)) || locQuant == "all" then
    let tmp := collectValidPairs state.objects rela objsToMove destinations
    .ok (groupBy (unique tmp) fun item => item.relation)
  else
    let interpretation : DNFFormula := objsToMove.flatMap fun obj =>
      destinations.filterMap fun dest =>
        if isValidIds state.objects obj dest rela then
          some [(⟨true, rela, [obj, dest]⟩ : Literal)]
        else none
    if decide (interpretation.length > 1) && entQuant == "the"
        && decide (objsToMove.length > 1) then
      .error (.ambiguity (mkClarificationMessage objsToMove state))
    else if decide (interpretation.length > 1) && locQuant == "the"
        && decide (destinations.length > 1) then
      .error (.ambiguity (mkClarificationMessage destinations state))
    else .ok interpretation

/-- The `put`/`move` arm of `interpretCommand`'s switch (the `entity` is
present for `move`, absent for `put`). -/
def movePutBody (entityOpt : Option Ent) (location : Loc) (state : WorldState) :
    Except IError DNFFormula :=
  match filter location.entity.object state with
  | .error e => .error e
  | .ok destinations0 =>
    let resolved : Except IError (List String × List String × String) :=
      match entityOpt with
      | some entity =>
        match state.holding with
        | some h =>
          let holdingMatch := isMatch entity.object (state.objects h)
          let holdingMatchDest := isMatch location.entity.object (state.objects h)
          let destinations := if holdingMatchDest then destinations0 ++ [h] else destinations0
          match filter entity.object state with
          | .error e => .error e
          | .ok objsToMove0 =>
            .ok (if holdingMatch then objsToMove0 ++ [h] else objsToMove0,
                 destinations, entity.quantifier)
        | none =>
          match filter entity.object state with
          | .error e => .error e
          | .ok objsToMove0 => .ok (objsToMove0, destinations0, entity.quantifier)
      | none =>
        match state.holding with
        | none => .error (.err "You are not holding anything. Please rephrase.")
        | some h => .ok ([h], destinations0, "the")
    match resolved with
    | .error e => .error e
    | .ok (objsToMove, destinations1, entQuant) =>
      let destinations :=
        if location.entity.object.formField == some "floor" then destinations1 ++ ["floor"]
        else destinations1
      let locQuant := location.entity.quantifier
      let rela := location.relation
      quantifierDispatch rela entQuant locQuant objsToMove destinations state

/-- The switch of `interpretCommand` (after the floor sentinel has been
written into `state.objects`). -/
def interpretSwitch (cmd : Cmd) (state : WorldState) : Except IError DNFFormula :=
  match cmd with
  | .take entity =>
    match filter entity.object state with
    | .error e => .error e
    | .ok objcts =>
      let interpretation : DNFFormula := objcts.map fun obj => [⟨true, .holding, [obj]⟩]
      let (objcts, interpretation) :=
        match state.holding with
        | some h =>
          if isMatch entity.object (state.objects h) then
            (objcts ++ [h], interpretation ++ [[(⟨true, .holding, [h]⟩ : Literal)]])
          else (objcts, interpretation)
        | none => (objcts, interpretation)
      if decide (interpretation.length > 1) && entity.quantifier == "the"
          && decide (objcts.length > 1) then
        .error (.ambiguity (mkClarificationMessage objcts state))
      else .ok interpretation
  | .move entity location => movePutBody (some entity) location state
  | .put location => movePutBody none location state

/-- `Interpreter.interpretCommand(cmd, state)`.  The first statement of the
source writes the floor sentinel into the caller's `state.objects`; the
returned pair carries the mutated state next to the result.  After the
switch, an empty interpretation throws and the result is deduplicated with
`Util.unique`. -/
def interpretCommand (cmd : Cmd) (state : WorldState) :
    Except IError DNFFormula × WorldState :=
  let state := { state with objects := Function.update state.objects "floor" floorAttrs }
  let result : Except IError DNFFormula :=
    match interpretSwitch cmd state with
    | .error e => .error e
    | .ok interpretation =>
      if interpretation.isEmpty then .error (.err "No valid interpetations found.")
      else .ok (unique interpretation)
  (result, state)

/-- `Interpreter.interpret(parses, currentState)`: runs `interpretCommand`
for every parse, collecting successes and caught errors; returns the
successes when there is at least one, otherwise throws the first error
(`errors[0]` is JavaScript-`undefined` when `parses` is empty; modelled by a
placeholder error).  Each call mutates `currentState.objects` by the same
idempotent floor insertion, so passing the original state to every call is
faithful. -/
def interpret (parses : List Cmd) (currentState : WorldState) :
    Except IError (List DNFFormula) :=
  let step := fun (acc : List IError × List DNFFormula) (parseresult : Cmd) =>
    match (interpretCommand parseresult currentState).1 with
    | .ok interpretation => (acc.1, acc.2 ++ [interpretation])
    | .error e => (acc.1 ++ [e], acc.2)
  let (errors, interpretations) := parses.foldl step ([], [])
  if interpretations.length != 0 then .ok interpretations
  else .error (errors.headD (.err "undefined"))

/-! ## State graph (`src/unnamed/part_004`) -/

/-- The four primitive arm actions. -/
inductive Action where
  | l
  | r
  | p
  | d
deriving DecidableEq, Repr

/-- `StateGraph.getNextState(state, action)` from `src/unnamed/part_004`
(`objects` is the graph's dictionary, `this.objects`).  In the drop case the
source sets `destination = state.stacks[state.arm][stackSize - 1]` — the top
*identifier string* of the stack, not its attribute record — so every
attribute read off a non-floor destination yields JavaScript-undefined,
modelled by the all-`none` record, and the string is never reference-equal to
the held object's record (`sameRef = false`). -/
def getNextState (objects : String → ObjAttrs) (state : WorldState) (action : Action) :
    Option WorldState :=
  match action with
  | .l =>
    if state.arm > 0 then some { state with arm := state.arm - 1 } else none
  | .r =>
    if state.arm < state.stacks.length - 1 then some { state with arm := state.arm + 1 }
    else none
  | .p =>
    let stack := state.stacks.getD state.arm []
    if decide (stack.length > 0) && state.holding == none then
      some { state with holding := stack.getLast?,
                        «stacks» := state.stacks.set state.arm stack.dropLast }
    else none
  | .d =>
    match state.holding with
    | none => none
    | some held =>
      let objToMove := objects held
      let stack := state.stacks.getD state.arm []
      let destination : ObjAttrs :=
        if stack.length = 0 then floorAttrs else ⟨none, none, none⟩
      let valid :=
        if destination.form == some "box" then isValid objToMove destination false .inside
        else isValid objToMove destination false .ontop
      if valid then
        some { state with «stacks» := state.stacks.set state.arm (stack ++ [held]),
                          holding := none }
      else none

/-! ## Planner goal evaluator and heuristic (`src/Planner.ts`) -/

/-- Index of the last stack containing `x` (the overwrite-without-break loops
of the planner's `beside` heuristic case). -/
def findLastStackIdx («stacks» : List (List String)) (x : String) : Option Nat :=
  (List.range stacks.length).foldl
    (fun acc k => if (stacks.getD k []).contains x then some k else acc) none

/-- First stack containing `x` together with `x`'s index in it. -/
def findObj («stacks» : List (List String)) (x : String) : Option (Nat × Nat) :=
  match findStackIdx «stacks» x with
  | none => none
  | some k => some (k, (indexOfJS (stacks.getD k []) x).toNat)

/-- First stack at position `≥ start` containing `x` (the second loop of the
planner's leftof/rightof heuristic case starts at `rightSide`). -/
def findStackIdxFrom («stacks» : List (List String)) (start : Nat) (x : String) :
    Option Nat :=
  match (stacks.drop start).findIdx? (fun stack => stack.contains x) with
  | none => none
  | some j => some (start + j)

/-- Evaluation of one binary literal by the planner's goal function `g`:
if the arm holds either argument the literal is not (yet) satisfied;
otherwise the relation is checked against the stacks. -/
def binaryEvalG (st : WorldState) (rel : Rel) (objToMove destination : String) : Bool :=
  if st.holding == some destination || st.holding == some objToMove then false
  else
    match rel with
    | .leftof | .rightof =>
      match findStackIdx st.stacks destination with
      | none => false
      | some k =>
        let objs :=
          if rel == .leftof then (st.stacks.take k).flatten
          else (st.stacks.drop (k + 1)).flatten
        objs.contains objToMove
    | .ontop | .inside =>
      if destination == "floor" then
        st.stacks.any fun stack => decide (stack.length ≠ 0) && stack.getD 0 "" == objToMove
      else
        match findStackIdx st.stacks destination with
        | none => false
        | some k =>
          let stack := st.stacks.getD k []
          let destIndex := (indexOfJS stack destination).toNat
          decide (destIndex < stack.length - 1) && stack.getD (destIndex + 1) "" == objToMove
    | .above =>
      match findStackIdx st.stacks destination with
      | none => false
      | some k =>
        let stack := st.stacks.getD k []
        let destIndex := (indexOfJS stack destination).toNat
        decide (destIndex < stack.length - 1) && (stack.drop (destIndex + 1)).contains objToMove
    | .under =>
      match findStackIdx st.stacks destination with
      | none => false
      | some k =>
        let stack := st.stacks.getD k []
        let destIndex := (indexOfJS stack destination).toNat
        decide (destIndex > 0) && (stack.take destIndex).contains objToMove
    | .beside =>
      match findStackIdx st.stacks destination with
      | none => false
      | some k =>
        (decide (k > 0) && (st.stacks.getD (k - 1) []).contains objToMove)
          || (decide (k < st.stacks.length - 1) && (st.stacks.getD (k + 1) []).contains objToMove)
    | .holding => false

/-- Evaluation of one literal by `g`: note that the literal's `polarity`
field is never consulted. -/
def litEvalG (st : WorldState) (lit : Literal) : Bool :=
  match lit.relation with
  | .holding => st.holding == some (lit.args.getD 0 "")
  | rel => binaryEvalG st rel (lit.args.getD 0 "") (lit.args.getD 1 "")

/-- The planner's goal function `g(n)`: some disjunct has all its literals
satisfied.  An empty conjunction is never accepted: in the source `isGoal`
is then left holding its previous value, which on any reachable path is
`undefined` or `false`. -/
def gEval (interpretation : DNFFormula) (st : WorldState) : Bool :=
  interpretation.any fun conj => !conj.isEmpty && conj.all (litEvalG st)

/-- The contribution of one literal to the planner heuristic's per-disjunct
cost (`currentGoal` increments in `h`).  Cases where the source would read
an undefined loop variable — an object occurring in no stack although not
held, impossible under the `WorldState` invariants — contribute 0 and are
marked below. -/
def hLit (st : WorldState) (lit : Literal) : Int :=
  let objToMove := lit.args.getD 0 ""
  let destination := lit.args.getD 1 ""
  match lit.relation with
  | .leftof | .rightof =>
    let (rightOfObject, leftOfObject) :=
      if lit.relation == .leftof then (destination, objToMove) else (objToMove, destination)
    if st.holding != some leftOfObject && st.holding != some rightOfObject then
      match findObj st.stacks rightOfObject with
      | none => 0 -- unreachable under the invariants (undefined `rightSide` in the source)
      | some (rightSide, rIdx) =>
        let stepsFromTop : Int := ((st.stacks.getD rightSide []).length : Int) - rIdx - 1
        match findStackIdxFrom st.stacks rightSide leftOfObject with
        | none => stepsFromTop
        | some k =>
          let lIdx := (indexOfJS (st.stacks.getD k []) leftOfObject).toNat
          let alt : Int := ((st.stacks.getD k []).length : Int) - lIdx - 1
          if stepsFromTop > alt then alt else stepsFromTop
    else 0
  | .ontop | .inside =>
    let (isGoal, stepsFromTop) :=
      if st.holding != some objToMove then
        match findObj st.stacks objToMove with
        | none => (false, (0 : Int))
        | some (k, tIdx) =>
          let stack := st.stacks.getD k []
          let dIdx := indexOfJS stack destination
          if dIdx != -1 && dIdx + 1 == (tIdx : Int) then (true, 0)
          else (false, ((stack.length : Int) - tIdx - 1))
      else (false, 0)
    if !isGoal then
      let destinationFromTop : Int :=
        if st.holding != some destination then
          if destination == "floor" then
            st.stacks.foldl
              (fun acc stack =>
                if acc == -1 || acc > (stack.length : Int) then (stack.length : Int) else acc)
              (-1)
          else
            match findObj st.stacks destination with
            | none => -1 -- `destinationFromTop` keeps its initial -1 in the source
            | some (k, dIdx) => ((st.stacks.getD k []).length : Int) - dIdx - 1
        else 0
      stepsFromTop + destinationFromTop
    else 0
  | .under | .above =>
    let (objectAbove, objectUnder) :=
      if lit.relation == .above then (objToMove, destination) else (destination, objToMove)
    if st.holding != some objectAbove then
      match findObj st.stacks objectAbove with
      | none => 0
      | some (k, tIdx) =>
        let stack := st.stacks.getD k []
        let dIdx := indexOfJS stack objectUnder
        if dIdx != -1 && (tIdx : Int) < dIdx then (stack.length : Int) - tIdx - 1
        else 0
    else 0
  | .beside =>
    if st.holding != some destination && st.holding != some objToMove then
      -- after the source's single non-breaking loop, the index variables
      -- hold the `indexOf` results of the LAST stack while the stack-index
      -- variables hold the last stack in which each object was found
      let destIndexFinal : Int := indexOfJS ((st.stacks.getLast?).getD []) destination
      let toMoveIndexFinal : Int := indexOfJS ((st.stacks.getLast?).getD []) objToMove
      match findLastStackIdx st.stacks destination with
      | none => 0 -- unreachable under the invariants (undefined `DestStackIndex`)
      | some dsi =>
        let isGoal :=
          (decide (dsi > 0) && (st.stacks.getD (dsi - 1) []).contains objToMove)
            || (decide (dsi < st.stacks.length - 1)
                && (st.stacks.getD (dsi + 1) []).contains objToMove)
        if !isGoal then
          let stepsFromTop : Int := ((st.stacks.getD dsi []).length : Int) - destIndexFinal - 1
          match findLastStackIdx st.stacks objToMove with
          | none => stepsFromTop -- unreachable under the invariants
          | some tsi =>
            let alt : Int := ((st.stacks.getD tsi []).length : Int) - toMoveIndexFinal - 1
            if stepsFromTop > alt then alt else stepsFromTop
        else 0
    else 0
  | .holding =>
    if st.holding != some objToMove then
      match findObj st.stacks objToMove with
      | none => 0
      | some (k, tIdx) => ((st.stacks.getD k []).length : Int) - tIdx - 1
    else 0

/-- The planner's heuristic `h(n)`: the per-disjunct totals, folded through
`cheapestGoal` exactly as in the source (`-1` marks the first iteration). -/
def hEval (interpretation : DNFFormula) (st : WorldState) : Int :=
  interpretation.foldl
    (fun cheapestGoal conj =>
      let currentGoal := conj.foldl (fun acc lit => acc + hLit st lit) 0
      if cheapestGoal > currentGoal || cheapestGoal == -1 then currentGoal else cheapestGoal)
    (-1)

/-! ## A* search (`src/unnamed/part_000`) -/

/-- An `Edge<Node>` (fields `from`/`to` in the source; `from` is a Lean
keyword, hence `src`/`dst`). -/
structure EdgeS (Node : Type) where
  src : Node
  dst : Node
  cost : Int

/-- A `Graph<Node>`: its outgoing-edges capability. -/
structure GraphS (Node : Type) where
  outgoingEdges : Node → List (EdgeS Node)

/-- A `SearchResult<Node>`. -/
structure SearchResultS (Node : Type) where
  path : List Node
  cost : Int
deriving DecidableEq

/-- `collections.Dictionary.getValue` over an association list. -/
def dictGet {Node α : Type} [DecidableEq Node] (m : List (Node × α)) (k : Node) :
    Option α :=
  (m.find? fun p => decide (p.1 = k)).map Prod.snd

/-- `collections.Dictionary.setValue`. -/
def dictSet {Node α : Type} [DecidableEq Node] (m : List (Node × α)) (k : Node) (v : α) :
    List (Node × α) :=
  (k, v) :: m.filter fun p => decide (p.1 ≠ k)

/-- The mutable state of `aStarSearch`: the `g` score dictionary, the
`visited` set, the priority queue contents and the `parent` map. -/
structure AState (Node : Type) where
  gScore : List (Node × Int)
  visited : List Node
  frontier : List Node
  parent : List (Node × Node)

/-- The element the priority queue's `dequeue` returns: a node of minimal
comparison value (leftmost on ties). -/
def selectMin {Node : Type} (f : Node → Int) : List Node → Option Node
  | [] => none
  | x :: xs =>
    match selectMin f xs with
    | none => some x
    | some y => if f y < f x then some y else some x

/-- Removal of the dequeued element from the queue contents. -/
def removeFirst {Node : Type} [DecidableEq Node] (x : Node) : List Node → List Node
  | [] => []
  | y :: ys => if y = x then ys else y :: removeFirst x ys

/-- `expandPath(node)`: walks the parent map back to `start`.  The source
recursion is bounded by the parent chain; `fuel` caps it (a missing parent —
where the source would recurse on `undefined` — yields `[node]`). -/
def expandPath {Node : Type} [DecidableEq Node] (parent : List (Node × Node))
    (start : Node) : Nat → Node → List Node
  | 0, node => [node]
  | fuel + 1, node =>
    match dictGet parent node with
    | none => [node]
    | some parentNode =>
      if parentNode = start then [start, node]
      else expandPath parent start fuel parentNode ++ [node]

/-- The while loop of `aStarSearch` from `src/unnamed/part_000`.  The
wall-clock guard `timeElapsed <= timeout` is modelled by the iteration
budget `fuel` (elapsed time grows monotonically, so the guard holds for a
prefix of the iterations); exhausting it — like finding the frontier empty —
exits the loop and returns the initial dummy result `{path: [start],
cost: 0}`.  The source contains no `throw`, so no `.error` is ever
produced. -/
def aStarLoop {Node : Type} [DecidableEq Node] (graph : GraphS Node) (start : Node)
    (goal : Node → Bool) (heuristics : Node → Int) :
    Nat → AState Node → Except String (SearchResultS Node)
  | 0, _ => .ok ⟨[start], 0⟩
  | fuel + 1, S =>
    let fval := fun x => (dictGet S.gScore x).getD 0 + heuristics x
    match selectMin fval S.frontier with
    | none => .ok ⟨[start], 0⟩
    | some current =>
      let frontier := removeFirst current S.frontier
      if goal current then
        .ok ⟨expandPath S.parent start (S.parent.length + 1) current,
             (dictGet S.gScore current).getD 0⟩
      else
        let S' := (graph.outgoingEdges current).foldl
          (fun (S : AState Node) edge =>
            let neighbour := edge.dst
            let oldScore : Option Int := dictGet S.gScore neighbour
            let newScore : Int := (dictGet S.gScore current).getD 0 + edge.cost
            let frontierContains := S.frontier.any fun y => decide (y = neighbour)
            -- `oldScore <= newScore` with `undefined` replaced by Infinity
            let oldLE :=
              match oldScore with
              | some o => decide (o ≤ newScore)
              | none => false
            if frontierContains then
              if oldLE then S
              else { S with gScore := dictSet S.gScore neighbour newScore,
                            parent := dictSet S.parent neighbour current }
            else if S.visited.any (fun y => decide (y = neighbour)) then
              if oldLE then S
              else { S with visited := S.visited.filter (fun y => decide (y ≠ neighbour)),
                            frontier := S.frontier ++ [neighbour],
                            gScore := dictSet S.gScore neighbour newScore,
                            parent := dictSet S.parent neighbour current }
            else
              { S with frontier := S.frontier ++ [neighbour],
                       gScore := dictSet S.gScore neighbour newScore,
                       parent := dictSet S.parent neighbour current })
          { S with frontier := frontier }
        aStarLoop graph start goal heuristics fuel { S' with visited := S'.visited ++ [current] }

/-- `aStarSearch(graph, start, goal, heuristics, timeout)` from
`src/unnamed/part_000`: seeds `g(start) = 0` and the frontier with `start`,
then runs the loop.  The result type is `Except` to make the absence of any
thrown error visible: every return of the source is an `.ok`. -/
def aStarSearch {Node : Type} [DecidableEq Node] (graph : GraphS Node) (start : Node)
    (goal : Node → Bool) (heuristics : Node → Int) (timeout : Nat) :
    Except String (SearchResultS Node) :=
  aStarLoop graph start goal heuristics timeout ⟨[(start, 0)], [], [start], []⟩

/-! ## Concrete worlds used by witnesses and counterexamples -/

/-- The object dictionary of the repository's "small" world (from
`InterpreterTestCases.ts` / the example worlds): e = large white ball,
f = small black ball, g = large blue table, k = large yellow box,
l = large red box, m = small blue box. -/
def smallObjects : String → ObjAttrs := fun s =>
  if s = "e" then ⟨some "ball", some "large", some "white"⟩
  else if s = "f" then ⟨some "ball", some "small", some "black"⟩
  else if s = "g" then ⟨some "table", some "large", some "blue"⟩
  else if s = "k" then ⟨some "box", some "large", some "yellow"⟩
  else if s = "l" then ⟨some "box", some "large", some "red"⟩
  else if s = "m" then ⟨some "box", some "small", some "blue"⟩
  else ⟨none, none, none⟩

/-- The small world: stacks `[e] [l,g,m] [k] [] [f]`, arm at 0, holding
nothing. -/
def smallWorld : WorldState :=
  ⟨[["e"], ["l", "g", "m"], ["k"], [], ["f"]], none, 0, smallObjects⟩

/-! ## C2: the drop action and `isValid` (code bug) -/

/-- The C2 failing input: the arm holds the small black ball `f` over the
single stack `[k]`, whose top is the large yellow box `k`. -/
def dropBugState : WorldState := ⟨[["k"]], some "f", 0, smallObjects⟩

/-- C2: dropping the held ball `f` onto the box `k` should be legal — the
spec's check `isValid(held, top, "inside")` succeeds, as the second conjunct
shows — but `getNextState` produces no successor, because the source passes
the top *identifier string* (whose `.form`/`.size` are undefined) to
`isValid`, so the "balls must be in boxes or on the floor" clause fires and
the `"inside"` branch is dead code. -/
theorem getNextState_drop_rejects_ball_on_box :
    getNextState smallObjects dropBugState .d = none ∧
    isValid (smallObjects "f") (smallObjects "k") false .inside = true := by
  exact ⟨rfl, rfl⟩

/-! ## C3: the heuristic overestimates at a satisfied `ontop(x, floor)` goal
(code bug) -/

/-- A world with the single stack `[a]` (a small blue ball on the floor). -/
def hBugState : WorldState :=
  ⟨[["a"]], none, 0,
    fun s => if s = "a" then ⟨some "ball", some "small", some "blue"⟩ else ⟨none, none, none⟩⟩

/-- The goal `ontop(a, floor)`. -/
def hBugGoal : DNFFormula := [[⟨true, .ontop, ["a", "floor"]⟩]]

/-- C3: the state already satisfies the goal (`g` returns true, so the
cheapest path to a goal state has 0 actions), yet `h` returns 1: its
already-satisfied check looks up `indexOf("floor")`, which never hits, and
it then charges the minimum stack height for the floor destination.  Hence
`h` is not admissible. -/
theorem h_overestimates_satisfied_goal :
    gEval hBugGoal hBugState = true ∧ hEval hBugGoal hBugState = 1 := by
  exact ⟨rfl, rfl⟩

/-! ## C5: A* failure behaviour -/

/-- A graph with a single reachable node and no edges. -/
def trivialGraph : GraphS Nat := ⟨fun _ => []⟩

/-- C5 counterexample: with an always-false goal on a one-node edgeless
graph, the open set empties without success, and `aStarSearch` returns the
normal dummy result `{path: [start], cost: 0}` — it raises neither a
no-path nor a search-timeout error. -/
theorem aStarSearch_exhaustion_returns_dummy :
    aStarSearch trivialGraph 0 (fun _ => false) (fun _ => 0) 5 =
      .ok ⟨[0], 0⟩ := by
  rfl

/-- Helper: when the goal predicate never holds, every iteration of the loop
falls through to the next one, and both loop exits return the initial dummy
result. -/
theorem aStarLoop_no_goal {Node : Type} [DecidableEq Node] (graph : GraphS Node)
    (start : Node) (goal : Node → Bool) (heuristics : Node → Int)
    (hg : ∀ n, goal n = false) :
    ∀ (fuel : Nat) (S : AState Node),
      aStarLoop graph start goal heuristics fuel S = .ok ⟨[start], 0⟩ := by
  intro fuel
  induction fuel with
  | zero => intro S; rfl
  | succ fuel ih =>
    intro S
    rw [aStarLoop]
    cases selectMin (fun x => (dictGet S.gScore x).getD 0 + heuristics x) S.frontier with
    | none => rfl
    | some current =>
      simp only [hg current, Bool.false_eq_true, if_false]
      exact ih _

/-- C5 amended: when no reachable node satisfies the goal — so the search
fails, by running out of time or by exhausting the open set — `aStarSearch`
does not raise an error; it returns the initial dummy result
`{path: [start], cost: 0}` as a normal `SearchResult`. -/
theorem aStarSearch_failure_no_error {Node : Type} [DecidableEq Node]
    (graph : GraphS Node) (start : Node) (goal : Node → Bool)
    (heuristics : Node → Int) (timeout : Nat) (hg : ∀ n, goal n = false) :
    aStarSearch graph start goal heuristics timeout = .ok ⟨[start], 0⟩ :=
  aStarLoop_no_goal graph start goal heuristics hg timeout _

/-- Witness for the amended C5 theorem at a concrete instance. -/
theorem aStarSearch_failure_no_error_witness :
    aStarSearch trivialGraph 1 (fun _ => false) (fun _ => 0) 3 = .ok ⟨[1], 0⟩ :=
  aStarSearch_failure_no_error trivialGraph 1 (fun _ => false) (fun _ => 0) 3
    (fun _ => rfl)

/-! ## C9: the frame effect of `interpretCommand` -/

/-- C9: every call of `interpretCommand` — succeeding or throwing — writes
the floor sentinel (form `floor`, null size and color) into the caller's
`state.objects` under the key `"floor"`, and leaves `stacks`, `arm` and
`holding` untouched. -/
theorem interpretCommand_state_effect (cmd : Cmd) (state : WorldState) :
    ((interpretCommand cmd state).2).objects =
        Function.update state.objects "floor" ⟨some "floor", none, none⟩ ∧
    ((interpretCommand cmd state).2).objects "floor" = ⟨some "floor", none, none⟩ ∧
    ((interpretCommand cmd state).2).stacks = state.stacks ∧
    ((interpretCommand cmd state).2).arm = state.arm ∧
    ((interpretCommand cmd state).2).holding = state.holding := by
  refine ⟨rfl, ?_, rfl, rfl, rfl⟩
  simp [interpretCommand, Function.update, floorAttrs]

/-! ## C10: the goal evaluator ignores polarity -/

/-- Pointwise modification of the `n`-th element of a list (identity when out
of range). -/
def mapAt {α : Type} (f : α → α) : Nat → List α → List α
  | _, [] => []
  | 0, x :: xs => f x :: xs
  | n + 1, x :: xs => x :: mapAt f n xs

/-- Negation of the polarity of literal `j` of conjunction `i`. -/
def negPolarityAt (dnf : DNFFormula) (i j : Nat) : DNFFormula :=
  mapAt (fun conj => mapAt (fun l => { l with polarity := !l.polarity }) j conj) i dnf

theorem litEvalG_polarity (st : WorldState) (l : Literal) (b : Bool) :
    litEvalG st { l with polarity := b } = litEvalG st l := by
  cases l
  rfl

theorem all_mapAt_polarity (st : WorldState) :
    ∀ (j : Nat) (conj : Conjunction),
      (mapAt (fun l => { l with polarity := !l.polarity }) j conj).all (litEvalG st) =
        conj.all (litEvalG st) := by
  intro j conj
  induction conj generalizing j with
  | nil => cases j <;> rfl
  | cons lit rest ih =>
    cases j with
    | zero => simp [mapAt, List.all_cons, litEvalG_polarity]
    | succ j => simp [mapAt, List.all_cons, ih]

theorem isEmpty_mapAt {α : Type} (f : α → α) :
    ∀ (j : Nat) (l : List α), (mapAt f j l).isEmpty = l.isEmpty := by
  intro j l
  cases l <;> cases j <;> rfl

/-- C10: the planner's goal evaluator never consults a literal's polarity;
negating the polarity of any literal of any DNF leaves `g` unchanged, so a
negative literal is evaluated exactly as if it asserted the relation
positively. -/
theorem gEval_ignores_polarity (dnf : DNFFormula) (st : WorldState) (i j : Nat) :
    gEval (negPolarityAt dnf i j) st = gEval dnf st := by
  unfold negPolarityAt
  induction dnf generalizing i with
  | nil => cases i <;> rfl
  | cons conj rest ih =>
    cases i with
    | zero =>
      simp [mapAt, gEval, List.any_cons, all_mapAt_polarity, isEmpty_mapAt]
    | succ i =>
      simp only [mapAt, gEval, List.any_cons] at *
      rw [ih]

/-! ## C6: `filter` on a description with zero matches -/

/-- A world with a single blue ball `a` on the floor. -/
def filterBugState : WorldState :=
  ⟨[["a"]], none, 0,
    fun s => if s = "a" then ⟨some "ball", some "small", some "blue"⟩ else ⟨none, none, none⟩⟩

/-- C6 counterexample: the description "a table" matches zero identifiers of
the world (the only object is a ball), yet `filter` returns the empty list
without raising any error — its "Couldn't find any matching object" throw
guards only the emptiness of the *candidate* set, which here is `["a"]`. -/
theorem filter_zero_matches_returns_empty :
    filter (.simple none none (some "table")) filterBugState = .ok [] ∧
    isMatch (.simple none none (some "table")) (filterBugState.objects "a") = false := by
  constructor
  · simp only [filter]; rfl
  · rfl

/-- The candidate set whose emptiness `filter` guards with the
no-matching-object throw: for a flat description the concatenated stack
contents, for a description with a location clause the output of
`filter_relations` (intersected with the inner description's matches when
that is itself nested).  This is the first half of `filter`'s body,
extracted so that the error condition can be stated. -/
def filterCandidates (obj : PObj) (state : WorldState) : Except IError (List String) :=
  match obj with
  | .simple _ _ _ => .ok state.stacks.flatten
  | .nested inner rel _ target =>
    if inner.isNested then
      match filter inner state with
      | .error e => .error e
      | .ok leif =>
        match filter_relations rel target state with
        | .error e => .error e
        | .ok objects => .ok (objects.filter fun v => leif.contains v)
    else filter_relations rel target state

/-- `filter` is its candidate computation followed by the emptiness guard and
the `isMatch` filtering. -/
theorem filter_eq_candidates (obj : PObj) (state : WorldState) :
    filter obj state =
      match filterCandidates obj state with
      | .error e => .error e
      | .ok objects =>
        if objects.isEmpty then .error (.err "Couldn't find any matching object")
        else .ok (objects.filter fun n => isMatch obj (state.objects n)) := by
  cases obj with
  | simple s c f => simp only [filter, filterCandidates]
  | nested inner rel q target => simp only [filter, filterCandidates]

/-- C6 amended: for every description — flat or nested — `filter` raises the
no-matching-object error exactly when its candidate set (stack contents, or
the relation-filtered candidates) is empty; an error thrown while resolving
an inner description propagates unchanged; and when candidates exist,
`filter` returns without error exactly the candidates matching the
description's attributes — in particular the empty list, not an error, when
the description matches zero identifiers of a non-empty candidate set. -/
theorem filter_error_characterization (obj : PObj) (state : WorldState) :
    (∀ cs, filterCandidates obj state = .ok cs →
      (filter obj state = .error (.err "Couldn't find any matching object") ↔ cs = [])) ∧
    (∀ cs, filterCandidates obj state = .ok cs → cs ≠ [] →
      filter obj state = .ok (cs.filter fun n => isMatch obj (state.objects n))) ∧
    (∀ e, filterCandidates obj state = .error e → filter obj state = .error e) := by
  refine ⟨?_, ?_, ?_⟩
  · intro cs hcs
    have hfc : filter obj state =
        (if cs.isEmpty then .error (.err "Couldn't find any matching object")
         else .ok (cs.filter fun n => isMatch obj (state.objects n))) := by
      rw [filter_eq_candidates obj state, hcs]
    constructor
    · intro herr
      rw [hfc] at herr
      split at herr
      · next hemp => exact List.isEmpty_iff.1 hemp
      · cases herr
    · intro hnil
      subst hnil
      simpa using hfc
  · intro cs hcs hne
    have hfc : filter obj state =
        (if cs.isEmpty then .error (.err "Couldn't find any matching object")
         else .ok (cs.filter fun n => isMatch obj (state.objects n))) := by
      rw [filter_eq_candidates obj state, hcs]
    rw [hfc, if_neg]
    intro hemp
    exact hne (List.isEmpty_iff.1 hemp)
  · intro e he
    rw [filter_eq_candidates obj state, he]

/-- Witness for the amended C6 theorem on a *nested* description: "a ball
inside a box" in the small world has the non-empty candidate set `["g"]`
(the object directly atop the box `l`), and since the table `g` is not a
ball, `filter` returns the empty list without raising any error. -/
theorem filter_error_characterization_witness :
    filter (PObj.nested (.simple none none (some "ball")) .inside "any"
      (.simple none none (some "box"))) smallWorld
      = .ok (["g"].filter fun n =>
          isMatch (PObj.nested (.simple none none (some "ball")) .inside "any"
            (.simple none none (some "box"))) (smallWorld.objects n)) :=
  (filter_error_characterization
      (PObj.nested (.simple none none (some "ball")) .inside "any"
        (.simple none none (some "box"))) smallWorld).2.1 ["g"]
    (by simp only [filterCandidates, PObj.isNested, filter_relations, inside, filter]; rfl)
    (by simp)

/-! ## C8: `aboveUnder` for the relation `above` -/

theorem indexOfJS_ge_neg_one (l : List String) (x : String) : -1 ≤ indexOfJS l x := by
  induction l with
  | nil => simp [indexOfJS]
  | cons y ys ih =>
    simp only [indexOfJS]
    split
    · omega
    · split <;> omega

theorem indexOfJS_eq_neg_one_iff (l : List String) (x : String) :
    indexOfJS l x = -1 ↔ x ∉ l := by
  induction l with
  | nil => simp [indexOfJS]
  | cons y ys ih =>
    simp only [indexOfJS, List.mem_cons]
    split
    · next hyq =>
      rw [beq_iff_eq] at hyq
      subst hyq
      constructor
      · intro habs; omega
      · intro habs; exact absurd (Or.inl rfl) habs
    · next hyq =>
      rw [beq_iff_eq] at hyq
      split
      · next hr =>
        rw [beq_iff_eq] at hr
        constructor
        · intro _ hmem
          rcases hmem with hmem | hmem
          · exact hyq hmem.symm
          · exact (ih.1 hr) hmem
        · intro _; rfl
      · next hr =>
        rw [beq_iff_eq] at hr
        have hge := indexOfJS_ge_neg_one ys x
        constructor
        · intro habs; omega
        · intro hmem
          exact absurd (ih.2 fun hin => hmem (Or.inr hin)) hr

/-- Folding a conditional append over a list is the initial value followed by
a `flatMap`. -/
theorem foldl_step_eq_flatMap {α β : Type} (g : α → List β) (step : List β → α → List β)
    (hstep : ∀ acc a, step acc a = acc ++ g a) :
    ∀ (l : List α) (init : List β), l.foldl step init = init ++ l.flatMap g := by
  intro l
  induction l with
  | nil => intro init; simp
  | cons a as ih =>
    intro init
    rw [List.foldl_cons, hstep, ih, List.flatMap_cons, List.append_assoc]

/-- The bottoms-of-non-empty-stacks fold is a `filterMap` of `head?`. -/
theorem bottoms_foldl_eq («stacks» : List (List String)) :
    ∀ init : List String,
      stacks.foldl (fun result stack =>
          match stack with
          | [] => result
          | x :: _ => result ++ [x]) init
        = init ++ stacks.filterMap List.head? := by
  induction «stacks» with
  | nil => intro init; simp
  | cons s ss ih =>
    intro init
    cases s with
    | nil => rw [List.foldl_cons]; simp only [List.filterMap_cons]; rw [ih]; rfl
    | cons x rest =>
      rw [List.foldl_cons]
      simp only [List.filterMap_cons]
      rw [ih]
      simp [List.append_assoc]

/-- C8 counterexample: resolving "above a table" in the small world.  The
table `g` sits in the stack `[l, g, m]`; `filter_relations` returns
`["g", "m"]` — the slice of the stack *starting at* the delimiter — so the
delimiter `g` itself is in the result although nothing is strictly above
itself. -/
theorem aboveUnder_includes_delimiter :
    filter_relations .above (.simple none none (some "table")) smallWorld = .ok ["g", "m"] ∧
    filter (.simple none none (some "table")) smallWorld = .ok ["g"] := by
  constructor
  · simp only [filter_relations, aboveUnder, filter]; rfl
  · simp only [filter]; rfl

/-- Membership in the nested fold of `aboveUnder`'s `above` branch: exactly
the elements at or above some delimiter in a stack containing it. -/
theorem aboveUnder_fold_mem (delims : List String) («stacks» : List (List String))
    (x : String) :
    (x ∈ delims.foldl (fun result delimiter =>
        stacks.foldl (fun result stack =>
          let index := indexOfJS stack delimiter
          if index != -1 then result ++ stack.drop index.toNat
          else result) result) ([] : List String))
    ↔ ∃ d ∈ delims, ∃ stack ∈ «stacks»,
        d ∈ stack ∧ x ∈ stack.drop (indexOfJS stack d).toNat := by
  have hinner : ∀ (d : String) (acc : List String),
      stacks.foldl (fun result stack =>
          let index := indexOfJS stack d
          if index != -1 then result ++ stack.drop index.toNat
          else result) acc
        = acc ++ stacks.flatMap (fun stack =>
            if indexOfJS stack d != -1 then stack.drop (indexOfJS stack d).toNat
            else []) := by
    intro d acc
    refine foldl_step_eq_flatMap
      (fun stack => if indexOfJS stack d != -1 then stack.drop (indexOfJS stack d).toNat
        else [])
      (fun result stack =>
        let index := indexOfJS stack d
        if index != -1 then result ++ stack.drop index.toNat else result)
      ?_ «stacks» acc
    intro acc' stack
    by_cases hidx : (indexOfJS stack d != -1) = true <;> simp [hidx]
  have houter :
      delims.foldl (fun result delimiter =>
          stacks.foldl (fun result stack =>
            let index := indexOfJS stack delimiter
            if index != -1 then result ++ stack.drop index.toNat
            else result) result) ([] : List String)
        = delims.flatMap (fun d => stacks.flatMap (fun stack =>
            if indexOfJS stack d != -1 then stack.drop (indexOfJS stack d).toNat
            else [])) := by
    refine (foldl_step_eq_flatMap
      (fun d => stacks.flatMap (fun stack =>
        if indexOfJS stack d != -1 then stack.drop (indexOfJS stack d).toNat else []))
      (fun result delimiter =>
        stacks.foldl (fun result stack =>
          let index := indexOfJS stack delimiter
          if index != -1 then result ++ stack.drop index.toNat
          else result) result)
      (fun acc d => hinner d acc) delims []).trans ?_
    simp
  rw [houter]
  simp only [List.mem_flatMap]
  constructor
  · rintro ⟨d, hd, stack, hstack, hx⟩
    split at hx
    · next hidx =>
      rw [bne_iff_ne] at hidx
      refine ⟨d, hd, stack, hstack, ?_, hx⟩
      by_contra hnm
      exact hidx ((indexOfJS_eq_neg_one_iff stack d).2 hnm)
    · simp at hx
  · rintro ⟨d, hd, stack, hstack, hmem, hx⟩
    refine ⟨d, hd, stack, hstack, ?_⟩
    have hidx : indexOfJS stack d ≠ -1 :=
      fun habs => ((indexOfJS_eq_neg_one_iff stack d).1 habs) hmem
    rw [if_pos (by simpa [bne_iff_ne] using hidx)]
    exact hx

/-- C8 amended: for the relation `above`, when the delimiter entity denotes
the floor the result is the bottom identifier of every non-empty stack; when
it does not, the result contains exactly the identifiers lying *at or
strictly above* some resolved delimiter in that delimiter's stack (the
suffix of the stack starting at the delimiter's position — in particular the
delimiter itself, which the claim excluded). -/
theorem aboveUnder_at_or_above (target : PObj) (state : WorldState)
    (delims res : List String)
    (hf : filter target state = .ok delims)
    (hr : filter_relations .above target state = .ok res) :
    (target.formField = some "floor" → res = state.stacks.filterMap List.head?) ∧
    (target.formField ≠ some "floor" →
      ∀ x, x ∈ res ↔ ∃ d ∈ delims, ∃ stack ∈ state.stacks,
        d ∈ stack ∧ x ∈ stack.drop (indexOfJS stack d).toNat) := by
  simp only [filter_relations, aboveUnder] at hr
  split at hr
  · next hfloor =>
    simp only [Bool.and_eq_true, beq_iff_eq] at hfloor
    injection hr with hr
    constructor
    · intro _
      rw [← hr, bottoms_foldl_eq]
      simp
    · intro hne
      exact absurd hfloor.1 hne
  · next hfloor =>
    rw [hf] at hr
    simp only [] at hr
    injection hr with hr
    have hnf : target.formField ≠ some "floor" := by
      intro habs
      exact hfloor (by simp [habs])
    refine ⟨fun habs => absurd habs hnf, fun _ x => ?_⟩
    rw [← hr]
    exact aboveUnder_fold_mem delims state.stacks x

/-- Witness for the amended C8 theorem: "above a table" in the small world
resolves to the delimiter `g` and its stack suffix `["g", "m"]`. -/
theorem aboveUnder_at_or_above_witness :
    ((PObj.simple none none (some "table")).formField = some "floor" →
      ["g", "m"] = smallWorld.stacks.filterMap List.head?) ∧
    ((PObj.simple none none (some "table")).formField ≠ some "floor" →
      ∀ x, x ∈ ["g", "m"] ↔ ∃ d ∈ ["g"], ∃ stack ∈ smallWorld.stacks,
        d ∈ stack ∧ x ∈ stack.drop (indexOfJS stack d).toNat) :=
  aboveUnder_at_or_above (.simple none none (some "table")) smallWorld ["g"] ["g", "m"]
    (by simp only [filter]; rfl)
    (by simp only [filter_relations, aboveUnder, filter]; rfl)

/-! ## C7: the top-level driver and ambiguity errors -/

/-- C7 counterexample: the first parse ("take the ball") raises the
ambiguous-the error, the second parse ("take a table") succeeds; the driver
returns the successful interpretation and the ambiguity error is *not*
surfaced to the caller. -/
theorem interpret_swallows_ambiguity :
    interpret [.take ⟨"the", .simple none none (some "ball")⟩,
               .take ⟨"any", .simple none none (some "table")⟩] smallWorld
      = .ok [[[⟨true, .holding, ["g"]⟩]]] ∧
    (interpretCommand (.take ⟨"the", .simple none none (some "ball")⟩) smallWorld).1
      = .error (.ambiguity
          "the large white ball (in stack 1) or the small black ball (in stack 5)") := by
  have h1 : (interpretCommand (.take ⟨"the", .simple none none (some "ball")⟩)
      smallWorld).1 = .error (.ambiguity
        "the large white ball (in stack 1) or the small black ball (in stack 5)") := by
    simp only [interpretCommand, interpretSwitch, filter]; rfl
  have h2 : (interpretCommand (.take ⟨"any", .simple none none (some "table")⟩)
      smallWorld).1 = .ok [[⟨true, .holding, ["g"]⟩]] := by
    simp only [interpretCommand, interpretSwitch, filter]; rfl
  refine ⟨?_, h1⟩
  simp only [interpret, List.foldl_cons, List.foldl_nil, h1, h2]
  rfl

/-- The fold of the driver splits the parses into caught errors and
successful interpretations, in order. -/
theorem interpret_foldl_spec (currentState : WorldState) :
    ∀ (parses : List Cmd) (acc : List IError × List DNFFormula),
      parses.foldl (fun acc parseresult =>
          match (interpretCommand parseresult currentState).1 with
          | .ok interpretation => (acc.1, acc.2 ++ [interpretation])
          | .error e => (acc.1 ++ [e], acc.2)) acc
        = (acc.1 ++ parses.filterMap (fun p =>
              match (interpretCommand p currentState).1 with
              | .error e => some e
              | .ok _ => none),
           acc.2 ++ parses.filterMap (fun p =>
              match (interpretCommand p currentState).1 with
              | .ok d => some d
              | .error _ => none)) := by
  intro parses
  induction parses with
  | nil => intro acc; simp
  | cons p ps ih =>
    intro acc
    rw [List.foldl_cons]
    cases hres : (interpretCommand p currentState).1 with
    | ok d =>
      simp only [hres, ih, List.filterMap_cons, List.append_assoc]
      simp
    | error e =>
      simp only [hres, ih, List.filterMap_cons, List.append_assoc]
      simp

/-- C7 amended: per-parse errors — ambiguity errors included — are
suppressed whenever at least one parse yields an interpretation: `interpret`
then returns exactly the successful interpretations, in order.  Only when
every parse fails does it throw, and then it throws the first collected
error (which may be the ambiguity error). -/
theorem interpret_suppresses_errors (parses : List Cmd) (currentState : WorldState) :
    interpret parses currentState =
      (let oks := parses.filterMap fun p =>
          match (interpretCommand p currentState).1 with
          | .ok d => some d
          | .error _ => none
       let errs := parses.filterMap fun p =>
          match (interpretCommand p currentState).1 with
          | .error e => some e
          | .ok _ => none
       if oks.isEmpty then Except.error (errs.headD (.err "undefined"))
       else .ok oks) := by
  simp only [interpret]
  rw [interpret_foldl_spec]
  simp only [List.nil_append]
  cases hoks : parses.filterMap fun p =>
      match (interpretCommand p currentState).1 with
      | .ok d => some d
      | .error _ => none <;>
    simp [hoks]

/-! ## C4: invariants of the returned DNF -/

/-- The per-literal half of the C4 invariant: a literal with two arguments
passes `isValid` on its `(move, dest, relation)` triple. -/
def LitOk (objects : String → ObjAttrs) (lit : Literal) : Prop :=
  ∀ a b, lit.args = [a, b] → isValidIds objects a b lit.relation = true

theorem collectValidPairs_mem (objects : String → ObjAttrs) (rela : Rel)
    (ms ds : List String) :
    ∀ lit ∈ collectValidPairs objects rela ms ds, LitOk objects lit := by
  intro lit hmem
  simp only [collectValidPairs, List.mem_flatMap, List.mem_filterMap] at hmem
  obtain ⟨o, _, d, _, heq⟩ := hmem
  split at heq
  · next hvalid =>
    injection heq with heq
    subst heq
    intro a b hab
    simp only [List.cons.injEq, and_true] at hab
    obtain ⟨h1, h2⟩ := hab
    subst h1
    subst h2
    exact hvalid
  · cases heq

theorem collectTheAllInner_mem (objects : String → ObjAttrs) (rela : Rel) (obj : String) :
    ∀ (ds : List String) (lits : List Literal),
      collectTheAllInner objects rela obj ds = .ok lits →
      ∀ lit ∈ lits, LitOk objects lit := by
  intro ds
  induction ds with
  | nil =>
    intro lits h lit hl
    injection h with h
    subst h
    cases hl
  | cons d ds ih =>
    intro lits h lit hl
    simp only [collectTheAllInner] at h
    split at h
    · next hvalid =>
      split at h
      · cases h
      · cases hrec : collectTheAllInner objects rela obj ds with
        | error e => rw [hrec] at h; cases h
        | ok rest =>
          rw [hrec] at h
          injection h with h
          subst h
          rcases List.mem_cons.1 hl with hl | hl
          · subst hl
            intro a b hab
            simp only [List.cons.injEq, and_true] at hab
            obtain ⟨h1, h2⟩ := hab
            subst h1
            subst h2
            exact hvalid
          · exact ih rest hrec lit hl
    · exact ih lits h lit hl

theorem collectTheAll_mem (objects : String → ObjAttrs) (rela : Rel) :
    ∀ (ms ds : List String) (lits : List Literal),
      collectTheAll objects rela ms ds = .ok lits →
      ∀ lit ∈ lits, LitOk objects lit := by
  intro ms
  induction ms with
  | nil =>
    intro ds lits h lit hl
    injection h with h
    subst h
    cases hl
  | cons o os ih =>
    intro ds lits h lit hl
    simp only [collectTheAll] at h
    cases hfirst : collectTheAllInner objects rela o ds with
    | error e => rw [hfirst] at h; cases h
    | ok first =>
      rw [hfirst] at h
      cases hrest : collectTheAll objects rela os ds with
      | error e => rw [hrest] at h; cases h
      | ok rest =>
        rw [hrest] at h
        injection h with h
        subst h
        rcases List.mem_append.1 hl with hl | hl
        · exact collectTheAllInner_mem objects rela o ds first hfirst lit hl
        · exact ih ds rest hrest lit hl

theorem quantifierDispatch_valid (rela : Rel) (entQuant locQuant : String)
    (objsToMove destinations : List String) (state : WorldState)
    (interp : DNFFormula)
    (h : quantifierDispatch rela entQuant locQuant objsToMove destinations state
        = .ok interp) :
    ∀ conj ∈ interp, ∀ lit ∈ conj, LitOk state.objects lit := by
  simp only [quantifierDispatch] at h
  split at h
  · cases h
  · split at h
    · -- grouping + cartesian product
      split at h
      · cases h
      · injection h with h
        subst h
        intro conj hconj lit hlit
        obtain ⟨g, hg, hlitg⟩ := cartProd_mem _ conj hconj lit hlit
        exact collectValidPairs_mem _ _ _ _ lit (groupBy_mem _ _ g hg lit hlitg)
    · split at h
      · -- slice-based `any`/`all`
        split at h <;>
          (injection h with h
           subst h
           intro conj hconj lit hlit
           exact collectValidPairs_mem _ _ _ _ lit (splitUp_mem _ _ conj hconj lit hlit))
      · split at h
        · -- `the`/`all`
          split at h
          · cases h
          · next tmp heq =>
            split at h
            · cases h
            · split at h
              · cases h
              · split at h
                · cases h
                · injection h with h
                  subst h
                  intro conj hconj lit hlit
                  have hmem := groupBy_mem _ _ conj hconj lit hlit
                  exact collectTheAll_mem _ _ _ _ tmp heq lit (unique_subset _ lit hmem)
        · split at h
          · -- remaining `all` combinations
            injection h with h
            subst h
            intro conj hconj lit hlit
            have hmem := groupBy_mem _ _ conj hconj lit hlit
            exact collectValidPairs_mem _ _ _ _ lit (unique_subset _ lit hmem)
          · -- default: each valid pair its own conjunction
            split at h
            · cases h
            · split at h
              · cases h
              · injection h with h
                subst h
                intro conj hconj lit hlit
                simp only [List.mem_flatMap, List.mem_filterMap] at hconj
                obtain ⟨o, _, d, _, heq⟩ := hconj
                split at heq
                · next hvalid =>
                  injection heq with heq
                  subst heq
                  simp only [List.mem_singleton] at hlit
                  subst hlit
                  intro a b hab
                  simp only [List.cons.injEq, and_true] at hab
                  obtain ⟨h1, h2⟩ := hab
                  subst h1
                  subst h2
                  exact hvalid
                · cases heq

theorem movePutBody_valid (entityOpt : Option Ent) (loc : Loc) (state : WorldState)
    (interp : DNFFormula) (h : movePutBody entityOpt loc state = .ok interp) :
    ∀ conj ∈ interp, ∀ lit ∈ conj, LitOk state.objects lit := by
  simp only [movePutBody] at h
  split at h
  · cases h
  · split at h
    · cases h
    · exact quantifierDispatch_valid _ _ _ _ _ state interp h

theorem litok_of_single_arg (objects : String → ObjAttrs) (lit : Literal) (o : String)
    (hargs : lit.args = [o]) : LitOk objects lit := by
  intro a b hab
  rw [hargs] at hab
  simp at hab

theorem holding_conj_mem (objects : String → ObjAttrs) (objcts : List String) :
    ∀ conj ∈ (objcts.map fun obj => [(⟨true, Rel.holding, [obj]⟩ : Literal)]),
      ∀ lit ∈ conj, LitOk objects lit := by
  intro conj hconj lit hlit
  simp only [List.mem_map] at hconj
  obtain ⟨o, _, hco⟩ := hconj
  subst hco
  simp only [List.mem_singleton] at hlit
  subst hlit
  exact litok_of_single_arg objects _ o rfl

theorem interpretSwitch_valid (cmd : Cmd) (state : WorldState) (interp : DNFFormula)
    (h : interpretSwitch cmd state = .ok interp) :
    ∀ conj ∈ interp, ∀ lit ∈ conj, LitOk state.objects lit := by
  cases cmd with
  | move entity location => exact movePutBody_valid (some entity) location state interp h
  | put location => exact movePutBody_valid none location state interp h
  | take entity =>
    simp only [interpretSwitch] at h
    split at h
    · cases h
    · next objcts0 heq0 =>
      split at h
      · cases h
      · injection h with h
        subst h
        intro conj hconj lit hlit
        cases hh : state.holding with
        | none =>
          simp only [hh] at hconj
          exact holding_conj_mem state.objects objcts0 conj hconj lit hlit
        | some hid =>
          simp only [hh] at hconj
          by_cases him : isMatch entity.object (state.objects hid) = true
          · rw [if_pos him] at hconj
            rcases List.mem_append.1 hconj with hconj | hconj
            · exact holding_conj_mem state.objects objcts0 conj hconj lit hlit
            · simp only [List.mem_singleton] at hconj
              subst hconj
              simp only [List.mem_singleton] at hlit
              subst hlit
              exact litok_of_single_arg state.objects _ hid rfl
          · rw [if_neg him] at hconj
            exact holding_conj_mem state.objects objcts0 conj hconj lit hlit

/-- C4: every DNF formula successfully returned by `interpretCommand`
contains no conjunction twice (conjunctions compared structurally), and
every literal of it carrying two arguments has a `(move, dest, relation)`
triple accepted by `isValid` (evaluated over the floor-extended object
dictionary, as at the call sites). -/
theorem interpretCommand_dnf_invariant (cmd : Cmd) (state : WorldState)
    (dnf : DNFFormula) (h : (interpretCommand cmd state).1 = .ok dnf) :
    dnf.Nodup ∧ ∀ conj ∈ dnf, ∀ lit ∈ conj, ∀ a b, lit.args = [a, b] →
      isValidIds (Function.update state.objects "floor" floorAttrs) a b lit.relation
        = true := by
  simp only [interpretCommand] at h
  split at h
  · cases h
  · next interp heq =>
    split at h
    · cases h
    · injection h with h
      subst h
      refine ⟨unique_nodup _, ?_⟩
      intro conj hconj lit hlit a b hab
      exact interpretSwitch_valid cmd _ interp heq conj
        (unique_subset _ conj hconj) lit hlit a b hab

/-- The DNF produced for "put a ball in a box" in the small world. -/
def ballInBoxDNF : DNFFormula :=
  [[⟨true, .inside, ["e", "l"]⟩], [⟨true, .inside, ["e", "k"]⟩],
   [⟨true, .inside, ["f", "l"]⟩], [⟨true, .inside, ["f", "m"]⟩],
   [⟨true, .inside, ["f", "k"]⟩]]

/-- Witness for C4 on "put a ball in a box" in the small world. -/
theorem interpretCommand_dnf_invariant_witness :
    ballInBoxDNF.Nodup ∧ ∀ conj ∈ ballInBoxDNF, ∀ lit ∈ conj,
      ∀ a b, lit.args = [a, b] →
        isValidIds (Function.update smallWorld.objects "floor" floorAttrs) a b
          lit.relation = true :=
  interpretCommand_dnf_invariant
    (.move ⟨"any", .simple none none (some "ball")⟩
      ⟨.inside, ⟨"any", .simple none none (some "box")⟩⟩)
    smallWorld ballInBoxDNF
    (by simp only [interpretCommand, interpretSwitch, movePutBody, quantifierDispatch,
          filter, ballInBoxDNF]
        rfl)

end Shrdlite
